import Mathlib

/-!
Verification of the team-assignment solver (`src/optimizer.py`,
`src/data_loader.py`) of the team-match-cp-optimization repository.

The CP-SAT model built by `assign_groups` is embedded shallowly: a
`Valuation` gives a value to every decision variable the Python code
creates, and `modelConstraints` states exactly the constraints (including
the variable-domain bounds of each `NewIntVar`) that the code adds to the
model.  A solver outcome accepted by the driver (`OPTIMAL`/`FEASIBLE`) is
any valuation satisfying `modelConstraints`; the post-solve extraction
(bucketing, dropping empty groups, renumbering) is embedded as executable
functions.
-/

namespace TeamMatch

/-- The `Student` record of `src/data_loader.py`.  `available_times` is a
Python `set` of strings, rendered as a list used up to membership;
`assigned_group` starts out `None`.  Skill fields are Python ints. -/
structure Student where
  student_id : String := ""
  name : String := ""
  email : String := ""
  github_username : String := ""
  preferred_partner_email : String := ""
  ruby_skill : Int := 0
  html_css_skill : Int := 0
  js_skill : Int := 0
  meeting_preference : String := ""
  available_times : List String := []
  «section» : String := ""
  constraints_note : String := ""
  assigned_group : Option Nat := none
deriving DecidableEq

/-- Python `str.strip()`: drop leading and trailing whitespace.  Written
by structural recursion over the character list so that it reduces inside
the kernel (Lean's `String.trim` is well-founded-recursive and does not). -/
def pyStrip (s : String) : String :=
  ⟨((s.data.dropWhile Char.isWhitespace).reverse.dropWhile Char.isWhitespace).reverse⟩

/-- `Student.total_skill_score` from `data_loader.py`. -/
def total_skill_score (s : Student) : Int :=
  s.ruby_skill + s.html_css_skill + s.js_skill

/-- Indexing into the student list (Python `students[i]`); total via a
default record, only used at indices below the length. -/
def studAt (students : List Student) (i : Nat) : Student :=
  students.getD i {}

/-- `max_groups = math.ceil(num_students / group_size_min)`. -/
def max_groups (group_size_min n : Nat) : Nat :=
  (n + group_size_min - 1) / group_size_min

/-- The CP-SAT solver statuses relevant to the driver. -/
inductive CpStatus where
  | optimal
  | feasible
  | infeasible
  | model_invalid
  | unknown
deriving DecidableEq

/-- The `email_to_index` dict of `add_preferred_partner_constraints`
(and `calculate_preference_score`): maps a trimmed email to the index of
the student carrying it; a Python dict comprehension lets the last
occurrence win. -/
def email_to_index (students : List Student) (e : String) : Option Nat :=
  (List.range students.length).foldl
    (fun acc i => if pyStrip (studAt students i).email = e then some i else acc)
    none

/-- Index set of "missing" students: empty/whitespace GitHub username
(`not student.github_username.strip()`). -/
def missingPred (students : List Student) (i : Nat) : Bool :=
  pyStrip (studAt students i).github_username = ""

/-- Availability-conflict trigger of `add_available_times_penalties`:
both sets non-empty and their intersection empty. -/
def availPairConflict (students : List Student) (i j : Nat) : Bool :=
  !(studAt students i).available_times.isEmpty &&
  !(studAt students j).available_times.isEmpty &&
  (studAt students i).available_times.all
    (fun t => !(studAt students j).available_times.contains t)

/-- Modality-conflict trigger of `add_meeting_preference_penalties`:
both preferences differ from the literal string "No Preference" and from
each other. -/
def meetingPairConflict (students : List Student) (i j : Nat) : Bool :=
  (studAt students i).meeting_preference != "No Preference" &&
  ((studAt students j).meeting_preference != "No Preference" &&
   (studAt students i).meeting_preference != (studAt students j).meeting_preference)

/-- Section-conflict trigger of `add_section_penalties`: both trimmed
sections non-empty and different. -/
def sectionPairConflict (students : List Student) (i j : Nat) : Bool :=
  pyStrip (studAt students i).«section» != "" &&
  (pyStrip (studAt students j).«section» != "" &&
   pyStrip (studAt students i).«section» != pyStrip (studAt students j).«section»)

/-- 0/1 value of a boolean CP variable. -/
def boolInt (b : Bool) : Int :=
  if b then 1 else 0

/-- A valuation of every variable family the model creates.  Variables
the code never creates (out-of-range indices, non-qualifying conflict
triples) are unconstrained. -/
structure Valuation where
  assigned_group : Nat → Nat
  is_in_group : Nat → Nat → Bool
  missing_students_in_group : Nat → Int
  group_sizes : Nat → Int
  group_is_used : Nat → Bool
  group_size_is_4 : Nat → Bool
  group_size_is_not_4 : Nat → Bool
  avail_conflict : Nat → Nat → Nat → Bool
  meeting_conflict : Nat → Nat → Nat → Bool
  section_conflict : Nat → Nat → Nat → Bool
  weighted_penalty_avail : Nat → Nat → Nat → Int
  weighted_penalty_meeting : Nat → Nat → Nat → Int
  weighted_penalty_section : Nat → Nat → Nat → Int
  total_conflict_penalty : Int
  total_skills : Nat → Int
  min_total_skill : Nat → Int
  max_skill : Int
  min_skill : Int
  skill_diff : Int
  is_same_group : Nat → Bool
  preference_score : Int
  total_groups_of_4 : Int

/-- Sum, over one conflict kind, of the weighted-penalty variables of all
qualifying pairs: the contribution of that kind to the list
`conflict_penalties` aggregated by `calculate_total_conflict_penalty`. -/
def kindPenaltySum (n K : Nat) (qual : Nat → Nat → Bool)
    (w : Nat → Nat → Nat → Int) : Int :=
  ((List.range n).map (fun i =>
    ((List.range n).map (fun j =>
      if i < j ∧ qual i j = true then
        ((List.range K).map (fun g => w i j g)).sum
      else 0)).sum)).sum

/-- Right-hand side of the `total_conflict_penalty` defining constraint:
the sum of every weighted penalty in `conflict_penalties` (availability,
then meeting, then section pairs). -/
def penaltyRHS (students : List Student) (K : Nat) (v : Valuation) : Int :=
  kindPenaltySum students.length K (availPairConflict students) v.weighted_penalty_avail
  + kindPenaltySum students.length K (meetingPairConflict students) v.weighted_penalty_meeting
  + kindPenaltySum students.length K (sectionPairConflict students) v.weighted_penalty_section

/-- Variable domains and linking constraints: `assigned_group[i]` has
domain `[0, max_groups-1]` and `is_in_group[i,g]` is tied to it by the
pair of `OnlyEnforceIf` constraints. -/
def linkConstraints (n K : Nat) (v : Valuation) : Prop :=
  ∀ i < n, v.assigned_group i < K ∧
    ∀ g < K, (v.is_in_group i g = true ↔ v.assigned_group i = g)

/-- `add_group_size_constraints` plus the domain `[0, group_size_max]`
given to each `group_sizes[g]` at creation. -/
def sizeConstraints (n K smin smax : Nat) (v : Valuation) : Prop :=
  ∀ g < K,
    v.group_sizes g = ((List.range n).map (fun i => boolInt (v.is_in_group i g))).sum
    ∧ (v.group_is_used g = true ↔ (smin : Int) ≤ v.group_sizes g)
    ∧ (v.group_is_used g = true → v.group_sizes g ≤ (smax : Int))
    ∧ (v.group_is_used g = false → v.group_sizes g = 0)
    ∧ (v.group_size_is_4 g = true ↔ v.group_sizes g = 4)
    ∧ (v.group_size_is_not_4 g = true ↔ v.group_sizes g ≠ 4)
    ∧ 0 ≤ v.group_sizes g ∧ v.group_sizes g ≤ (smax : Int)

/-- `add_preferred_partner_constraints`: for a student whose trimmed
preferred email is non-empty and present in `email_to_index`, equality of
the two `assigned_group` variables.  (`email_to_index` only returns
indices below `n`, so bounding `j` is harmless.) -/
def prefConstraints (students : List Student) (v : Valuation) : Prop :=
  ∀ i < students.length, ∀ j < students.length,
    pyStrip (studAt students i).preferred_partner_email ≠ "" →
    email_to_index students (pyStrip (studAt students i).preferred_partner_email) = some j →
    v.assigned_group i = v.assigned_group j

/-- `add_missing_students_constraints` plus the domain
`[0, len(missing_student_indices)]` of each counter variable. -/
def missingConstraints (students : List Student) (K : Nat) (v : Valuation) : Prop :=
  ∀ g < K,
    v.missing_students_in_group g =
      ((List.range students.length).map (fun i =>
        if missingPred students i then boolInt (v.is_in_group i g) else 0)).sum
    ∧ v.missing_students_in_group g ≤ 1
    ∧ 0 ≤ v.missing_students_in_group g
    ∧ v.missing_students_in_group g ≤
        (((List.range students.length).filter (missingPred students)).length : Int)

/-- One `(i, j, g)` cell of a conflict family: the `AddBoolAnd` /
`AddBoolOr` reification of "both in `g`" and the weighted-penalty
equalities of `calculate_total_conflict_penalty`. -/
def conflictCell (conflictVar : Nat → Nat → Nat → Bool) (w : Nat → Nat → Nat → Int)
    (weight : Int) (v : Valuation) (i j g : Nat) : Prop :=
  (conflictVar i j g = true ↔ (v.is_in_group i g = true ∧ v.is_in_group j g = true))
  ∧ w i j g = (if conflictVar i j g then weight else 0)

instance decidableConflictCell (conflictVar : Nat → Nat → Nat → Bool)
    (w : Nat → Nat → Nat → Int) (weight : Int) (v : Valuation) (i j g : Nat) :
    Decidable (conflictCell conflictVar w weight v i j g) := by
  unfold conflictCell; infer_instance

def conflictFamily (n K : Nat) (qual : Nat → Nat → Bool)
    (conflictVar : Nat → Nat → Nat → Bool) (w : Nat → Nat → Nat → Int)
    (weight : Int) (v : Valuation) : Prop :=
  ∀ i < n, ∀ j < n, i < j → qual i j = true → ∀ g < K,
    conflictCell conflictVar w weight v i j g

instance decidableConflictFamily (n K : Nat) (qual : Nat → Nat → Bool)
    (conflictVar : Nat → Nat → Nat → Bool) (w : Nat → Nat → Nat → Int)
    (weight : Int) (v : Valuation) :
    Decidable (conflictFamily n K qual conflictVar w weight v) := by
  unfold conflictFamily; infer_instance

/-- All three penalty families with their source weights. -/
def conflictConstraints (students : List Student) (K : Nat) (v : Valuation) : Prop :=
  conflictFamily students.length K (availPairConflict students)
    v.avail_conflict v.weighted_penalty_avail 1300 v
  ∧ conflictFamily students.length K (meetingPairConflict students)
    v.meeting_conflict v.weighted_penalty_meeting 1000 v
  ∧ conflictFamily students.length K (sectionPairConflict students)
    v.section_conflict v.weighted_penalty_section 50 v

/-- `calculate_total_conflict_penalty` plus the `[0, num_students*1000]`
domain the variable was created with. -/
def totalPenaltyConstraint (students : List Student) (K : Nat) (v : Valuation) : Prop :=
  v.total_conflict_penalty = penaltyRHS students K v
  ∧ 0 ≤ v.total_conflict_penalty
  ∧ v.total_conflict_penalty ≤ (students.length : Int) * 1000

/-- `add_skill_constraints`: per-group skill totals, the multiplication
equality `min_total_skill = group_sizes · 5`, and the floor for used
groups; with the `NewIntVar` domains. -/
def skillConstraints (students : List Student) (K : Nat) (v : Valuation) : Prop :=
  ∀ g < K,
    v.total_skills g =
      ((List.range students.length).map (fun i =>
        total_skill_score (studAt students i) * boolInt (v.is_in_group i g))).sum
    ∧ 0 ≤ v.total_skills g ∧ v.total_skills g ≤ (students.length : Int) * 15
    ∧ v.min_total_skill g = v.group_sizes g * 5
    ∧ 0 ≤ v.min_total_skill g ∧ v.min_total_skill g ≤ (students.length : Int) * 5
    ∧ (v.group_is_used g = true → v.min_total_skill g ≤ v.total_skills g)

/-- `AddMaxEquality`/`AddMinEquality` over the per-group skill totals and
the difference variable, with their domains. -/
def skillDiffConstraints (n K : Nat) (v : Valuation) : Prop :=
  (∀ g < K, v.total_skills g ≤ v.max_skill)
  ∧ (0 < K → ∃ g < K, v.max_skill = v.total_skills g)
  ∧ (∀ g < K, v.min_skill ≤ v.total_skills g)
  ∧ (0 < K → ∃ g < K, v.min_skill = v.total_skills g)
  ∧ v.skill_diff = v.max_skill - v.min_skill
  ∧ 0 ≤ v.max_skill ∧ v.max_skill ≤ (n : Int) * 15
  ∧ 0 ≤ v.min_skill ∧ v.min_skill ≤ (n : Int) * 15
  ∧ 0 ≤ v.skill_diff ∧ v.skill_diff ≤ (n : Int) * 15

/-- `calculate_preference_score`: one reified equality per resolved
preference and the score as the sum of the indicators. -/
def prefScoreConstraints (students : List Student) (v : Valuation) : Prop :=
  (∀ i < students.length, ∀ j < students.length,
    pyStrip (studAt students i).preferred_partner_email ≠ "" →
    email_to_index students (pyStrip (studAt students i).preferred_partner_email) = some j →
    (v.is_same_group i = true ↔ v.assigned_group i = v.assigned_group j))
  ∧ v.preference_score =
      ((List.range students.length).map (fun i =>
        if pyStrip (studAt students i).preferred_partner_email ≠ "" ∧
            (email_to_index students (pyStrip (studAt students i).preferred_partner_email)).isSome
        then boolInt (v.is_same_group i) else 0)).sum
  ∧ 0 ≤ v.preference_score

/-- `total_groups_of_4` definition and domain. -/
def groupsOf4Constraint (K : Nat) (v : Valuation) : Prop :=
  v.total_groups_of_4 = ((List.range K).map (fun g => boolInt (v.group_size_is_4 g))).sum
  ∧ 0 ≤ v.total_groups_of_4 ∧ v.total_groups_of_4 ≤ (K : Int)

/-- The complete constraint set of the model built by `assign_groups`
for minimum/maximum group sizes `smin`/`smax` (defaults 3/4).  A solver
outcome the driver accepts is exactly a valuation satisfying this. -/
def modelConstraints (students : List Student) (smin smax : Nat) (v : Valuation) : Prop :=
  linkConstraints students.length (max_groups smin students.length) v
  ∧ sizeConstraints students.length (max_groups smin students.length) smin smax v
  ∧ prefConstraints students v
  ∧ missingConstraints students (max_groups smin students.length) v
  ∧ conflictConstraints students (max_groups smin students.length) v
  ∧ totalPenaltyConstraint students (max_groups smin students.length) v
  ∧ skillConstraints students (max_groups smin students.length) v
  ∧ skillDiffConstraints students.length (max_groups smin students.length) v
  ∧ prefScoreConstraints students v
  ∧ groupsOf4Constraint (max_groups smin students.length) v

instance decidableLinkConstraints (n K : Nat) (v : Valuation) :
    Decidable (linkConstraints n K v) := by
  unfold linkConstraints; infer_instance

instance decidableSizeConstraints (n K smin smax : Nat) (v : Valuation) :
    Decidable (sizeConstraints n K smin smax v) := by
  unfold sizeConstraints; infer_instance

instance decidablePrefConstraints (students : List Student) (v : Valuation) :
    Decidable (prefConstraints students v) := by
  unfold prefConstraints; infer_instance

instance decidableMissingConstraints (students : List Student) (K : Nat) (v : Valuation) :
    Decidable (missingConstraints students K v) := by
  unfold missingConstraints; infer_instance

instance decidableConflictConstraints (students : List Student) (K : Nat) (v : Valuation) :
    Decidable (conflictConstraints students K v) := by
  unfold conflictConstraints; infer_instance

instance decidableTotalPenaltyConstraint (students : List Student) (K : Nat) (v : Valuation) :
    Decidable (totalPenaltyConstraint students K v) := by
  unfold totalPenaltyConstraint; infer_instance

instance decidableSkillConstraints (students : List Student) (K : Nat) (v : Valuation) :
    Decidable (skillConstraints students K v) := by
  unfold skillConstraints; infer_instance

instance decidableSkillDiffConstraints (n K : Nat) (v : Valuation) :
    Decidable (skillDiffConstraints n K v) := by
  unfold skillDiffConstraints; infer_instance

instance decidablePrefScoreConstraints (students : List Student) (v : Valuation) :
    Decidable (prefScoreConstraints students v) := by
  unfold prefScoreConstraints; infer_instance

instance decidableGroupsOf4Constraint (K : Nat) (v : Valuation) :
    Decidable (groupsOf4Constraint K v) := by
  unfold groupsOf4Constraint; infer_instance

instance decidableModelConstraints (students : List Student) (smin smax : Nat)
    (v : Valuation) : Decidable (modelConstraints students smin smax v) := by
  unfold modelConstraints
  infer_instance

/-- The bucket of group `g`: indices of the students the solver placed
in `g`, in input order (the success branch of `assign_groups` appends
student `i` to `groups[g]` for increasing `i`). -/
def bucket (n : Nat) (ag : Nat → Nat) (g : Nat) : List Nat :=
  (List.range n).filter (fun i => ag i = g)

/-- The list `groups` right before the return: one bucket per group index
`0..K-1`, with empty buckets removed. -/
def groupsIdx (n K : Nat) (ag : Nat → Nat) : List (List Nat) :=
  ((List.range K).map (bucket n ag)).filter (fun t => !t.isEmpty)

/-- The `group_mapping` of `renumber_groups`: `sorted(set(ags))` is the
sorted list of distinct old ids, and an old id is sent to its 1-based
position in it (`enumerate(unique_groups, start=1)`). -/
def renumber_map (ags : List Nat) (a : Nat) : Nat :=
  (List.insertionSort (· ≤ ·) ags.dedup).indexOf a + 1

/-- `renumber_groups` on the list of `assigned_group` values: each value
is replaced by `group_mapping[old]`. -/
def renumber_groups (ags : List Nat) : List Nat :=
  ags.map (renumber_map ags)

/-- The annotation loop of the success branch:
`students[i].assigned_group = g + 1`. -/
def annotateStudents (students : List Student) (ag : Nat → Nat) : List Student :=
  (List.range students.length).map
    (fun i => { studAt students i with assigned_group := some (ag i + 1) })

/-- `renumber_groups(students)` at the student level: the Python loop
rewrites each student's `assigned_group` through `group_mapping`.  At its
call site every `assigned_group` is set; `getD 0` totalizes the read. -/
def renumberStudents (students : List Student) : List Student :=
  students.map (fun s =>
    { s with
      assigned_group := some (renumber_map
        (students.map (fun t => t.assigned_group.getD 0)) (s.assigned_group.getD 0)) })

/-- The driver logic of `assign_groups` after `solver.Solve`: on
`OPTIMAL`/`FEASIBLE`, annotate, bucket, drop empty groups, renumber, and
return the (index-level) groups together with the final student list; on
any other status, return no groups and the untouched student list. -/
def assign_groups (students : List Student) (smin : Nat)
    (status : CpStatus) (ag : Nat → Nat) : List (List Nat) × List Student :=
  if status = CpStatus.optimal ∨ status = CpStatus.feasible then
    (groupsIdx students.length (max_groups smin students.length) ag,
     renumberStudents (annotateStudents students ag))
  else
    ([], students)

/-- Final (post-renumbering) team id of student `i` under solver
assignment `ag`, read off the returned student list. -/
def finalGroup (students : List Student) (ag : Nat → Nat) (i : Nat) : Option Nat :=
  (studAt (renumberStudents (annotateStudents students ag)) i).assigned_group

/-- The pre-renumbering `assigned_group` values written by the success
branch: `g + 1` for each student in input order. -/
def annotAgs (students : List Student) (ag : Nat → Nat) : List Nat :=
  (List.range students.length).map (fun k => ag k + 1)

/-- Canonical valuation induced by a concrete assignment `ag`: every
auxiliary variable gets the value the constraints force.  Used to build
concrete feasible solver outcomes for witnesses. -/
def mkValuation (students : List Student) (smin K : Nat) (ag : Nat → Nat) : Valuation :=
  let n := students.length
  let sizes : Nat → Int := fun g => ((bucket n ag g).length : Int)
  let ts : Nat → Int := fun g =>
    ((bucket n ag g).map (fun i => total_skill_score (studAt students i))).sum
  let wA : Nat → Nat → Nat → Int := fun i j g => if ag i = g ∧ ag j = g then 1300 else 0
  let wM : Nat → Nat → Nat → Int := fun i j g => if ag i = g ∧ ag j = g then 1000 else 0
  let wS : Nat → Nat → Nat → Int := fun i j g => if ag i = g ∧ ag j = g then 50 else 0
  { assigned_group := ag
    is_in_group := fun i g => decide (ag i = g)
    missing_students_in_group := fun g =>
      (((bucket n ag g).filter (missingPred students)).length : Int)
    group_sizes := sizes
    group_is_used := fun g => decide ((smin : Int) ≤ sizes g)
    group_size_is_4 := fun g => decide (sizes g = 4)
    group_size_is_not_4 := fun g => !decide (sizes g = 4)
    avail_conflict := fun i j g => decide (ag i = g) && decide (ag j = g)
    meeting_conflict := fun i j g => decide (ag i = g) && decide (ag j = g)
    section_conflict := fun i j g => decide (ag i = g) && decide (ag j = g)
    weighted_penalty_avail := wA
    weighted_penalty_meeting := wM
    weighted_penalty_section := wS
    total_conflict_penalty :=
      kindPenaltySum n K (availPairConflict students) wA
      + kindPenaltySum n K (meetingPairConflict students) wM
      + kindPenaltySum n K (sectionPairConflict students) wS
    total_skills := ts
    min_total_skill := fun g => sizes g * 5
    max_skill := (((List.range K).map ts).max?).getD 0
    min_skill := (((List.range K).map ts).min?).getD 0
    skill_diff := (((List.range K).map ts).max?).getD 0
      - (((List.range K).map ts).min?).getD 0
    is_same_group := fun i =>
      match email_to_index students (pyStrip (studAt students i).preferred_partner_email) with
      | some j => decide (ag i = ag j)
      | none => true
    preference_score :=
      ((List.range n).map (fun i =>
        if pyStrip (studAt students i).preferred_partner_email ≠ "" ∧
            (email_to_index students (pyStrip (studAt students i).preferred_partner_email)).isSome
        then boolInt (match email_to_index students
            (pyStrip (studAt students i).preferred_partner_email) with
          | some j => decide (ag i = ag j)
          | none => true) else 0)).sum
    total_groups_of_4 :=
      ((List.range K).map (fun g => boolInt (decide (sizes g = 4)))).sum }

/-- Claim-side closed form of the conflict penalty: for each unordered
co-placed pair, 1300 for an availability clash, 1000 for a modality
clash, 50 for a section clash; unknown traits contribute nothing. -/
def pairPenalty (students : List Student) (i j : Nat) : Int :=
  (if availPairConflict students i j then 1300 else 0)
  + (if meetingPairConflict students i j then 1000 else 0)
  + (if sectionPairConflict students i j then 50 else 0)

/-- Claim-side total: the sum of `pairPenalty` over unordered pairs
placed in the same team. -/
def coPlacedPenalty (students : List Student) (ag : Nat → Nat) : Int :=
  ((List.range students.length).map (fun i =>
    ((List.range students.length).map (fun j =>
      if i < j ∧ ag i = ag j then pairPenalty students i j else 0)).sum)).sum

/-! ### Concrete instances used as witnesses and counterexamples -/

/-- Three identical compatible students; one team of three is feasible. -/
def sA : List Student := [
  { email := "a@x.edu", github_username := "ga", ruby_skill := 2, html_css_skill := 2,
    js_skill := 1, meeting_preference := "No Preference", available_times := ["Mon"] },
  { email := "b@x.edu", github_username := "gb", ruby_skill := 2, html_css_skill := 2,
    js_skill := 1, meeting_preference := "No Preference", available_times := ["Mon"] },
  { email := "c@x.edu", github_username := "gc", ruby_skill := 2, html_css_skill := 2,
    js_skill := 1, meeting_preference := "No Preference", available_times := ["Mon"] }]

def agA : Nat → Nat := fun _ => 0

def vA : Valuation := mkValuation sA 3 (max_groups 3 sA.length) agA

/-- Six students, two of whom (indices 0 and 3) share the same trimmed
email; student 1 prefers that email.  Feasible split into two teams of
three with student 1 next to index 3 (the last occurrence) but away from
index 0. -/
def sDup : List Student := [
  { email := "dup@x.edu", github_username := "g0", ruby_skill := 2, html_css_skill := 2,
    js_skill := 1, meeting_preference := "No Preference", available_times := ["Mon"] },
  { email := "a@x.edu", github_username := "g1", preferred_partner_email := "dup@x.edu",
    ruby_skill := 2, html_css_skill := 2, js_skill := 1,
    meeting_preference := "No Preference", available_times := ["Mon"] },
  { email := "c@x.edu", github_username := "g2", ruby_skill := 2, html_css_skill := 2,
    js_skill := 1, meeting_preference := "No Preference", available_times := ["Mon"] },
  { email := "dup@x.edu", github_username := "g3", ruby_skill := 2, html_css_skill := 2,
    js_skill := 1, meeting_preference := "No Preference", available_times := ["Mon"] },
  { email := "e@x.edu", github_username := "g4", ruby_skill := 2, html_css_skill := 2,
    js_skill := 1, meeting_preference := "No Preference", available_times := ["Mon"] },
  { email := "f@x.edu", github_username := "g5", ruby_skill := 2, html_css_skill := 2,
    js_skill := 1, meeting_preference := "No Preference", available_times := ["Mon"] }]

def agDup : Nat → Nat := fun i => i % 2

def vDup : Valuation := mkValuation sDup 3 (max_groups 3 sDup.length) agDup

/-- Six compatible students with the solver picking team index 1 for the
first three and team index 0 for the last three. -/
def sRev : List Student := [
  { email := "a@x.edu", github_username := "ga", ruby_skill := 2, html_css_skill := 2,
    js_skill := 1, meeting_preference := "No Preference", available_times := ["Mon"] },
  { email := "b@x.edu", github_username := "gb", ruby_skill := 2, html_css_skill := 2,
    js_skill := 1, meeting_preference := "No Preference", available_times := ["Mon"] },
  { email := "c@x.edu", github_username := "gc", ruby_skill := 2, html_css_skill := 2,
    js_skill := 1, meeting_preference := "No Preference", available_times := ["Mon"] },
  { email := "d@x.edu", github_username := "gd", ruby_skill := 2, html_css_skill := 2,
    js_skill := 1, meeting_preference := "No Preference", available_times := ["Mon"] },
  { email := "e@x.edu", github_username := "ge", ruby_skill := 2, html_css_skill := 2,
    js_skill := 1, meeting_preference := "No Preference", available_times := ["Mon"] },
  { email := "f@x.edu", github_username := "gf", ruby_skill := 2, html_css_skill := 2,
    js_skill := 1, meeting_preference := "No Preference", available_times := ["Mon"] }]

def agRev : Nat → Nat := fun i => if i < 3 then 1 else 0

def vRev : Valuation := mkValuation sRev 3 (max_groups 3 sRev.length) agRev

/-- Six students; index 0 has the out-of-vocabulary modality "Hybrid" and
is co-placed with index 1 whose modality is "Remote". -/
def sMod : List Student := [
  { email := "a@x.edu", github_username := "ga", ruby_skill := 2, html_css_skill := 2,
    js_skill := 1, meeting_preference := "Hybrid", available_times := ["Mon"] },
  { email := "b@x.edu", github_username := "gb", ruby_skill := 2, html_css_skill := 2,
    js_skill := 1, meeting_preference := "Remote", available_times := ["Mon"] },
  { email := "c@x.edu", github_username := "gc", ruby_skill := 2, html_css_skill := 2,
    js_skill := 1, meeting_preference := "No Preference", available_times := ["Mon"] },
  { email := "d@x.edu", github_username := "gd", ruby_skill := 2, html_css_skill := 2,
    js_skill := 1, meeting_preference := "No Preference", available_times := ["Mon"] },
  { email := "e@x.edu", github_username := "ge", ruby_skill := 2, html_css_skill := 2,
    js_skill := 1, meeting_preference := "No Preference", available_times := ["Mon"] },
  { email := "f@x.edu", github_username := "gf", ruby_skill := 2, html_css_skill := 2,
    js_skill := 1, meeting_preference := "No Preference", available_times := ["Mon"] }]

def agMod : Nat → Nat := fun i => if i < 3 then 0 else 1

def vMod : Valuation := mkValuation sMod 3 (max_groups 3 sMod.length) agMod

/-- A list already carrying the renumbered team ids `1..2`. -/
def sRen : List Student := [
  { email := "a@x.edu", assigned_group := some 1 },
  { email := "b@x.edu", assigned_group := some 2 },
  { email := "c@x.edu", assigned_group := some 1 }]

/-! ### Generic sum lemmas -/

lemma sum_boolInt_filter (p : Nat → Bool) (l : List Nat) :
    ((l.map (fun i => boolInt (p i))).sum) = ((l.filter p).length : Int) := by
  induction l with
  | nil => simp
  | cons x t ih =>
    simp only [List.map_cons, List.sum_cons, List.filter_cons]
    rw [ih]
    by_cases hx : p x
    · simp only [hx, if_true, boolInt, List.length_cons]
      push_cast
      ring
    · simp [hx, boolInt]

lemma sum_mul_boolInt_filter (c : Nat → Int) (p : Nat → Bool) (l : List Nat) :
    ((l.map (fun i => c i * boolInt (p i))).sum) = (((l.filter p).map c).sum) := by
  induction l with
  | nil => simp
  | cons x t ih =>
    simp only [List.map_cons, List.sum_cons, List.filter_cons]
    rw [ih]
    by_cases hx : p x
    · simp [hx, boolInt]
    · simp [hx, boolInt]

lemma sum_ite_filter (c : Nat → Int) (p : Nat → Bool) (l : List Nat) :
    ((l.map (fun i => if p i then c i else 0)).sum) = (((l.filter p).map c).sum) := by
  induction l with
  | nil => simp
  | cons x t ih =>
    simp only [List.map_cons, List.sum_cons, List.filter_cons]
    rw [ih]
    by_cases hx : p x
    · simp [hx]
    · simp [hx]

/-- A sum over `List.range K` of a one-hot conditional collapses to the
value at the hot index. -/
lemma sum_range_oneHot {M : Type} [AddCommMonoid M] (a : Nat) (w : Nat → M) :
    ∀ K : Nat, a < K →
      ((List.range K).map (fun g => if a = g then w g else 0)).sum = w a := by
  intro K
  induction K with
  | zero => omega
  | succ m ih =>
    intro h
    rw [List.range_succ, List.map_append, List.sum_append]
    by_cases hm : a = m
    · subst hm
      have hn : ∀ g ∈ List.range a, (if a = g then w g else 0) = 0 := by
        intro g hg
        simp only [List.mem_range] at hg
        simp [Nat.ne_of_gt hg]
      rw [List.map_congr_left hn]
      simp
    · have ha : a < m := by omega
      rw [ih ha]
      simp [hm]

lemma sum_range_oneHot_pair (a b K : Nat) (w : Int) (h : a < K) :
    ((List.range K).map (fun g => if a = g ∧ b = g then w else 0)).sum
      = if a = b then w else 0 := by
  by_cases hab : a = b
  · subst hab
    have he : ∀ g ∈ List.range K,
        (if a = g ∧ a = g then w else 0) = (if a = g then w else 0) := by
      intro g _; by_cases hg : a = g <;> simp [hg]
    rw [List.map_congr_left he, sum_range_oneHot a (fun _ => w) K h]
    simp
  · have he : ∀ g ∈ List.range K, (if a = g ∧ b = g then w else 0) = 0 := by
      intro g _
      by_cases hg : a = g
      · subst hg
        rw [if_neg (fun hc => hab hc.2.symm)]
      · rw [if_neg (fun hc => hg hc.1)]
    rw [List.map_congr_left he]
    simp [hab]

/-- Every member contributes at most the whole sum when all terms are
nonnegative. -/
lemma single_le_sum_of_nonneg {α : Type} (f : α → Int) :
    ∀ l : List α, (∀ x ∈ l, 0 ≤ f x) → ∀ a ∈ l, f a ≤ (l.map f).sum
  | [], _, a, ha => by simp at ha
  | x :: t, h, a, ha => by
    rcases List.mem_cons.mp ha with rfl | hat
    · have : 0 ≤ (t.map f).sum := by
        refine List.sum_nonneg ?_
        intro y hy
        rcases List.mem_map.mp hy with ⟨z, hz, rfl⟩
        exact h z (List.mem_cons_of_mem _ hz)
      simp only [List.map_cons, List.sum_cons]
      omega
    · have hx : 0 ≤ f x := h x (List.mem_cons_self _ _)
      have := single_le_sum_of_nonneg f t
        (fun y hy => h y (List.mem_cons_of_mem _ hy)) a hat
      simp only [List.map_cons, List.sum_cons]
      omega

/-! ### Consequences of the model constraints -/

lemma iig_eq_decide {students : List Student} {smin smax : Nat} {v : Valuation}
    (hc : modelConstraints students smin smax v)
    {i g : Nat} (hi : i < students.length) (hg : g < max_groups smin students.length) :
    v.is_in_group i g = decide (v.assigned_group i = g) := by
  have h := ((hc.1 i hi).2) g hg
  by_cases hag : v.assigned_group i = g
  · rw [h.mpr hag]
    simp [hag]
  · cases hbv : v.is_in_group i g with
    | false => simp [hag]
    | true => exact absurd (h.mp hbv) hag

lemma ag_lt {students : List Student} {smin smax : Nat} {v : Valuation}
    (hc : modelConstraints students smin smax v)
    {i : Nat} (hi : i < students.length) :
    v.assigned_group i < max_groups smin students.length :=
  (hc.1 i hi).1

lemma filter_iig_eq_bucket {students : List Student} {smin smax : Nat} {v : Valuation}
    (hc : modelConstraints students smin smax v)
    {g : Nat} (hg : g < max_groups smin students.length) :
    (List.range students.length).filter (fun i => v.is_in_group i g)
      = bucket students.length v.assigned_group g := by
  apply List.filter_congr
  intro x hx
  rw [List.mem_range] at hx
  rw [iig_eq_decide hc hx hg]

lemma group_sizes_eq_length {students : List Student} {smin smax : Nat} {v : Valuation}
    (hc : modelConstraints students smin smax v)
    {g : Nat} (hg : g < max_groups smin students.length) :
    v.group_sizes g = ((bucket students.length v.assigned_group g).length : Int) := by
  have h := (hc.2.1 g hg).1
  rw [h, sum_boolInt_filter, filter_iig_eq_bucket hc hg]

lemma mem_bucket {n g i : Nat} {ag : Nat → Nat} :
    i ∈ bucket n ag g ↔ i < n ∧ ag i = g := by
  simp [bucket, List.mem_filter, List.mem_range]

lemma mem_groupsIdx {n K : Nat} {ag : Nat → Nat} {t : List Nat} :
    t ∈ groupsIdx n K ag ↔ (∃ g, g < K ∧ t = bucket n ag g) ∧ t ≠ [] := by
  constructor
  · intro ht
    rcases List.mem_filter.mp ht with ⟨hmem, hne⟩
    rcases List.mem_map.mp hmem with ⟨g, hgr, rfl⟩
    rw [List.mem_range] at hgr
    refine ⟨⟨g, hgr, rfl⟩, ?_⟩
    intro hnil
    rw [hnil] at hne
    simp at hne
  · rintro ⟨⟨g, hg, rfl⟩, hne⟩
    refine List.mem_filter.mpr ⟨List.mem_map.mpr ⟨g, List.mem_range.mpr hg, rfl⟩, ?_⟩
    simp [List.isEmpty_iff, hne]

/-- Every returned team is a nonempty bucket whose size the model bounds
by `[smin, smax]`. -/
lemma team_length_bounds {students : List Student} {smin smax : Nat} {v : Valuation}
    (hc : modelConstraints students smin smax v)
    {t : List Nat}
    (ht : t ∈ groupsIdx students.length (max_groups smin students.length) v.assigned_group) :
    smin ≤ t.length ∧ t.length ≤ smax := by
  rcases mem_groupsIdx.mp ht with ⟨⟨g, hg, rfl⟩, hne⟩
  have hlen := group_sizes_eq_length hc hg
  have hsz := hc.2.1 g hg
  have hpos : 0 < (bucket students.length v.assigned_group g).length :=
    List.length_pos.mpr hne
  have hused : v.group_is_used g = true := by
    cases hb : v.group_is_used g with
    | false =>
      have h0 := hsz.2.2.2.1 hb
      rw [hlen] at h0
      omega
    | true => rfl
  have hmin : (smin : Int) ≤ v.group_sizes g := hsz.2.1.mp hused
  have hmax : v.group_sizes g ≤ (smax : Int) := hsz.2.2.1 hused
  rw [hlen] at hmin hmax
  omega

lemma bucket_count {n g i : Nat} {ag : Nat → Nat} (hi : i < n) :
    (bucket n ag g).count i = if ag i = g then 1 else 0 := by
  by_cases hg : ag i = g
  · rw [if_pos hg]
    exact List.count_eq_one_of_mem ((List.nodup_range n).filter _)
      (mem_bucket.mpr ⟨hi, hg⟩)
  · rw [if_neg hg]
    exact List.count_eq_zero_of_not_mem (fun hm => hg (mem_bucket.mp hm).2)

/-- Dropping empty lists does not change element counts in the
concatenation. -/
lemma count_flatten_filter_nonempty (a : Nat) (L : List (List Nat)) :
    ((L.filter (fun t => !t.isEmpty)).flatten.count a) = (L.flatten.count a) := by
  induction L with
  | nil => simp
  | cons x t ih =>
    by_cases hx : x.isEmpty
    · have hxe : x = [] := List.isEmpty_iff.mp hx
      subst hxe
      simpa [List.filter_cons] using ih
    · simp only [List.filter_cons, hx, Bool.not_false, if_true, List.flatten_cons,
        List.count_append]
      rw [ih]

/-- Under the model constraints, each student index below `n` occurs
exactly once across the returned teams. -/
lemma count_flatten_groupsIdx {students : List Student} {smin smax : Nat} {v : Valuation}
    (hc : modelConstraints students smin smax v) {i : Nat} (hi : i < students.length) :
    ((groupsIdx students.length (max_groups smin students.length)
        v.assigned_group).flatten.count i) = 1 := by
  unfold groupsIdx
  rw [count_flatten_filter_nonempty, List.count_flatten, List.map_map]
  have he : ∀ g ∈ List.range (max_groups smin students.length),
      ((List.count i ∘ bucket students.length v.assigned_group) g)
        = (if v.assigned_group i = g then (1 : Nat) else 0) := by
    intro g _
    simp only [Function.comp_apply]
    rw [bucket_count hi]
  rw [List.map_congr_left he,
    sum_range_oneHot (v.assigned_group i) (fun _ => 1) _ (ag_lt hc hi)]

lemma mem_team_lt {n K i : Nat} {ag : Nat → Nat} {t : List Nat}
    (ht : t ∈ groupsIdx n K ag) (hit : i ∈ t) : i < n := by
  rcases mem_groupsIdx.mp ht with ⟨⟨g, _, rfl⟩, -⟩
  exact (mem_bucket.mp hit).1

/-- Per-team aggregate skill under the model constraints. -/
lemma team_skill_sum {students : List Student} {smin smax : Nat} {v : Valuation}
    (hc : modelConstraints students smin smax v)
    {g : Nat} (hg : g < max_groups smin students.length) :
    v.total_skills g = ((bucket students.length v.assigned_group g).map
      (fun i => total_skill_score (studAt students i))).sum := by
  have h := (hc.2.2.2.2.2.2.1 g hg).1
  rw [h, sum_mul_boolInt_filter, filter_iig_eq_bucket hc hg]

/-- The skill-floor inequality for every returned team. -/
lemma team_skill_floor {students : List Student} {smin smax : Nat} {v : Valuation}
    (hc : modelConstraints students smin smax v) (hsmin : 1 ≤ smin)
    {t : List Nat}
    (ht : t ∈ groupsIdx students.length (max_groups smin students.length) v.assigned_group) :
    5 * (t.length : Int) ≤ (t.map (fun i => total_skill_score (studAt students i))).sum := by
  rcases hmem : mem_groupsIdx.mp ht with ⟨⟨g, hg, hteq⟩, hne⟩
  have hsk := hc.2.2.2.2.2.2.1 g hg
  have hlen := group_sizes_eq_length hc hg
  have hbounds := team_length_bounds hc ht
  have hused : v.group_is_used g = true := by
    have hszg := hc.2.1 g hg
    apply hszg.2.1.mpr
    rw [hlen, ← hteq]
    have : 1 ≤ t.length := by omega
    exact_mod_cast le_trans (by exact_mod_cast hbounds.1) (le_refl _)
  have hfloor := hsk.2.2.2.2.2.2 hused
  have hmin : v.min_total_skill g = v.group_sizes g * 5 := hsk.2.2.2.1
  rw [hmin, hlen, ← hteq] at hfloor
  have hts := team_skill_sum hc hg
  rw [← hteq] at hts
  rw [← hts]
  linarith

lemma assign_groups_fst_of_success {students : List Student} {status : CpStatus}
    {ag : Nat → Nat} (hs : status = CpStatus.optimal ∨ status = CpStatus.feasible) :
    (assign_groups students 3 status ag).1
      = groupsIdx students.length (max_groups 3 students.length) ag := by
  unfold assign_groups
  rw [if_pos hs]

/-- Reformulate a conflict family's reification in terms of the
`assigned_group` values. -/
lemma conflictFamily_ag {students : List Student} {smin smax : Nat} {v : Valuation}
    (hc : modelConstraints students smin smax v)
    {qual : Nat → Nat → Bool} {cv : Nat → Nat → Nat → Bool}
    {w : Nat → Nat → Nat → Int} {weight : Int}
    (hfam : conflictFamily students.length (max_groups smin students.length)
      qual cv w weight v) :
    ∀ i < students.length, ∀ j < students.length, i < j → qual i j = true →
      ∀ g < max_groups smin students.length,
        (cv i j g = true ↔ (v.assigned_group i = g ∧ v.assigned_group j = g))
        ∧ w i j g = (if cv i j g then weight else 0) := by
  intro i hi j hj hij hq g hg
  obtain ⟨hiff, heq⟩ := hfam i hi j hj hij hq g hg
  refine ⟨?_, heq⟩
  rw [iig_eq_decide hc hi hg, iig_eq_decide hc hj hg] at hiff
  simpa using hiff

/-- Collapse one conflict kind's weighted-variable sum to the
co-placement closed form. -/
lemma kindPenaltySum_closed (n K : Nat) (qual : Nat → Nat → Bool)
    (cv : Nat → Nat → Nat → Bool) (w : Nat → Nat → Nat → Int) (weight : Int)
    (ag : Nat → Nat)
    (hag : ∀ i < n, ag i < K)
    (hfam : ∀ i < n, ∀ j < n, i < j → qual i j = true → ∀ g < K,
      (cv i j g = true ↔ (ag i = g ∧ ag j = g))
      ∧ w i j g = (if cv i j g then weight else 0)) :
    kindPenaltySum n K qual w
      = ((List.range n).map (fun i => ((List.range n).map (fun j =>
          if i < j ∧ qual i j = true then (if ag i = ag j then weight else 0)
          else 0)).sum)).sum := by
  unfold kindPenaltySum
  refine congrArg List.sum (List.map_congr_left ?_)
  intro i hi
  rw [List.mem_range] at hi
  refine congrArg List.sum (List.map_congr_left ?_)
  intro j hj
  rw [List.mem_range] at hj
  by_cases hcond : i < j ∧ qual i j = true
  · rw [if_pos hcond, if_pos hcond]
    have hterm : ∀ g ∈ List.range K,
        w i j g = (if ag i = g ∧ ag j = g then weight else 0) := by
      intro g hgk
      rw [List.mem_range] at hgk
      obtain ⟨hiff, heq⟩ := hfam i hi j hj hcond.1 hcond.2 g hgk
      rw [heq]
      by_cases hgg : ag i = g ∧ ag j = g
      · rw [if_pos hgg, if_pos (hiff.mpr hgg)]
      · have hfalse : cv i j g = false := by
          cases hcv : cv i j g with
          | false => rfl
          | true => exact absurd (hiff.mp hcv) hgg
        rw [hfalse, if_neg hgg]
        simp
    rw [List.map_congr_left hterm]
    exact sum_range_oneHot_pair (ag i) (ag j) K weight (hag i hi)
  · rw [if_neg hcond, if_neg hcond]

/-- The model's total conflict penalty equals the claim-side closed
form. -/
lemma total_penalty_closed_form {students : List Student} {v : Valuation}
    (hc : modelConstraints students 3 4 v) :
    v.total_conflict_penalty = coPlacedPenalty students v.assigned_group := by
  have htcp := hc.2.2.2.2.2.1.1
  have famA := conflictFamily_ag hc hc.2.2.2.2.1.1
  have famM := conflictFamily_ag hc hc.2.2.2.2.1.2.1
  have famS := conflictFamily_ag hc hc.2.2.2.2.1.2.2
  have hag : ∀ i < students.length,
      v.assigned_group i < max_groups 3 students.length :=
    fun i hi => ag_lt hc hi
  rw [htcp]
  unfold penaltyRHS
  rw [kindPenaltySum_closed _ _ _ _ _ _ _ hag famA,
    kindPenaltySum_closed _ _ _ _ _ _ _ hag famM,
    kindPenaltySum_closed _ _ _ _ _ _ _ hag famS,
    ← List.sum_map_add, ← List.sum_map_add]
  unfold coPlacedPenalty
  refine congrArg List.sum (List.map_congr_left ?_)
  intro i _
  rw [← List.sum_map_add, ← List.sum_map_add]
  refine congrArg List.sum (List.map_congr_left ?_)
  intro j _
  by_cases h1 : i < j
  · by_cases h2 : v.assigned_group i = v.assigned_group j
    · simp [pairPenalty, h1, h2]
    · simp [pairPenalty, h1, h2]
  · simp [pairPenalty, h1]

/-! ### Claim theorems -/

/-- Claim C1: for every input on which `assign_groups` returns a result
(the solver status is `OPTIMAL` or `FEASIBLE`, i.e. the returned valuation
satisfies the model), every student index appears in exactly one returned
team, every member of a team is a valid index, and every team has between
3 and 4 members (defaults `group_size_min = 3`, `group_size_max = 4`). -/
theorem claim_C1_partition_sizes (students : List Student) (v : Valuation)
    (hc : modelConstraints students 3 4 v)
    (status : CpStatus)
    (hs : status = CpStatus.optimal ∨ status = CpStatus.feasible) :
    (∀ t ∈ (assign_groups students 3 status v.assigned_group).1,
        3 ≤ t.length ∧ t.length ≤ 4) ∧
    (∀ i < students.length,
        ((assign_groups students 3 status v.assigned_group).1.flatten.count i) = 1) ∧
    (∀ t ∈ (assign_groups students 3 status v.assigned_group).1, ∀ i ∈ t,
        i < students.length) := by
  rw [assign_groups_fst_of_success hs]
  exact ⟨fun t ht => team_length_bounds hc ht,
    fun i hi => count_flatten_groupsIdx hc hi,
    fun t ht i hit => mem_team_lt ht hit⟩

theorem claim_C1_witness :
    (∀ t ∈ (assign_groups sA 3 CpStatus.optimal vA.assigned_group).1,
        3 ≤ t.length ∧ t.length ≤ 4) ∧
    (∀ i < sA.length,
        ((assign_groups sA 3 CpStatus.optimal vA.assigned_group).1.flatten.count i) = 1) ∧
    (∀ t ∈ (assign_groups sA 3 CpStatus.optimal vA.assigned_group).1, ∀ i ∈ t,
        i < sA.length) :=
  claim_C1_partition_sizes sA vA (by decide) CpStatus.optimal (Or.inl rfl)

/-- Claim C3: on every returned team, the aggregate total skill (ruby +
html/css + js over the members) is at least `5` times the team size. -/
theorem claim_C3_skill_floor (students : List Student) (v : Valuation)
    (hc : modelConstraints students 3 4 v)
    (status : CpStatus)
    (hs : status = CpStatus.optimal ∨ status = CpStatus.feasible) :
    ∀ t ∈ (assign_groups students 3 status v.assigned_group).1,
      5 * (t.length : Int)
        ≤ (t.map (fun i => total_skill_score (studAt students i))).sum := by
  rw [assign_groups_fst_of_success hs]
  intro t ht
  exact team_skill_floor hc (by omega) ht

theorem claim_C3_witness :
    5 * (((assign_groups sA 3 CpStatus.optimal vA.assigned_group).1.headI).length : Int)
      ≤ (((assign_groups sA 3 CpStatus.optimal vA.assigned_group).1.headI).map
          (fun i => total_skill_score (studAt sA i))).sum :=
  claim_C3_skill_floor sA vA (by decide) CpStatus.optimal (Or.inl rfl)
    ((assign_groups sA 3 CpStatus.optimal vA.assigned_group).1.headI) (by decide)

/-- Claim C9: on any solver status other than `OPTIMAL` or `FEASIBLE`,
`assign_groups` returns the empty list of teams and the student list
unchanged (in particular every `assigned_group` field, set or unset, is
untouched). -/
theorem claim_C9_failure_untouched (students : List Student) (status : CpStatus)
    (ag : Nat → Nat)
    (h1 : status ≠ CpStatus.optimal) (h2 : status ≠ CpStatus.feasible) :
    assign_groups students 3 status ag = ([], students) := by
  unfold assign_groups
  rw [if_neg]
  rintro (hs | hs) <;> [exact h1 hs; exact h2 hs]

theorem claim_C9_witness :
    assign_groups sA 3 CpStatus.infeasible agA = ([], sA) :=
  claim_C9_failure_untouched sA CpStatus.infeasible agA (by decide) (by decide)

/-- Claim C4: in every accepted solution the model's total conflict
penalty equals the sum, over unordered co-placed pairs, of 1300 per
availability clash (both sets non-empty, empty intersection), 1000 per
modality clash (both not "No Preference" and different), and 50 per
section clash (both trimmed non-empty and different); pairs with an
unknown trait on either side contribute nothing for that trait. -/
theorem claim_C4_penalty_closed_form (students : List Student) (v : Valuation)
    (hc : modelConstraints students 3 4 v) :
    v.total_conflict_penalty = coPlacedPenalty students v.assigned_group :=
  total_penalty_closed_form hc

theorem claim_C4_witness :
    vMod.total_conflict_penalty = coPlacedPenalty sMod vMod.assigned_group :=
  claim_C4_penalty_closed_form sMod vMod (by decide)

/-- Claim C6 is false on the code: student 0 of `sMod` has the
out-of-vocabulary modality "Hybrid", is co-placed with student 1
("Remote"), and the pair does contribute a 1000 modality-conflict
penalty (the meeting-kind sum and the whole total are 1000, with the
availability and section kinds zero). -/
theorem claim_C6_counterexample :
    modelConstraints sMod 3 4 vMod
    ∧ (studAt sMod 0).meeting_preference = "Hybrid"
    ∧ (studAt sMod 0).meeting_preference ∉ ["In Person", "Remote", "No Preference"]
    ∧ vMod.assigned_group 0 = vMod.assigned_group 1
    ∧ kindPenaltySum sMod.length (max_groups 3 sMod.length)
        (availPairConflict sMod) vMod.weighted_penalty_avail = 0
    ∧ kindPenaltySum sMod.length (max_groups 3 sMod.length)
        (meetingPairConflict sMod) vMod.weighted_penalty_meeting = 1000
    ∧ kindPenaltySum sMod.length (max_groups 3 sMod.length)
        (sectionPairConflict sMod) vMod.weighted_penalty_section = 0
    ∧ vMod.total_conflict_penalty = 1000 := by
  refine ⟨by decide, by decide, by decide, by decide, by decide, by decide, by decide,
    by decide⟩

/-- Claim C6 amended: modality strings are compared literally and never
canonicalized, so a participant with an out-of-vocabulary modality (any
string other than "No Preference", known or not) co-placed with a
student whose modality differs and is not "No Preference" contributes a
1000 modality-conflict penalty; the model total is then at least 1000. -/
theorem claim_C6_amended_modality_literal (students : List Student) (v : Valuation)
    (hc : modelConstraints students 3 4 v)
    (i j : Nat) (hi : i < students.length) (hj : j < students.length) (hij : i < j)
    (hsame : v.assigned_group i = v.assigned_group j)
    (hmi : (studAt students i).meeting_preference ≠ "No Preference")
    (hmj : (studAt students j).meeting_preference ≠ "No Preference")
    (hne : (studAt students i).meeting_preference
      ≠ (studAt students j).meeting_preference) :
    1000 ≤ v.total_conflict_penalty := by
  rw [total_penalty_closed_form hc]
  have hppn : ∀ a b : Nat, (0:Int) ≤
      (if a < b ∧ v.assigned_group a = v.assigned_group b
        then pairPenalty students a b else 0) := by
    intro a b
    split_ifs with h
    · unfold pairPenalty
      split_ifs <;> norm_num
    · exact le_refl 0
  have hq : meetingPairConflict students i j = true := by
    simp [meetingPairConflict, bne_iff_ne, hmi, hmj, hne]
  have hterm : (1000:Int) ≤
      (if i < j ∧ v.assigned_group i = v.assigned_group j
        then pairPenalty students i j else 0) := by
    rw [if_pos ⟨hij, hsame⟩]
    unfold pairPenalty
    rw [hq]
    simp only [if_true]
    split_ifs <;> norm_num
  unfold coPlacedPenalty
  have hin : (1000:Int) ≤ ((List.range students.length).map
      (fun jj => if i < jj ∧ v.assigned_group i = v.assigned_group jj
        then pairPenalty students i jj else 0)).sum :=
    le_trans hterm (single_le_sum_of_nonneg _ _ (fun x _ => hppn i x) j
      (List.mem_range.mpr hj))
  refine le_trans hin (single_le_sum_of_nonneg _ _ ?_ i (List.mem_range.mpr hi))
  intro k _
  refine List.sum_nonneg ?_
  intro y hy
  rcases List.mem_map.mp hy with ⟨z, _, rfl⟩
  exact hppn k z

theorem claim_C6_amended_witness :
    1000 ≤ vMod.total_conflict_penalty :=
  claim_C6_amended_modality_literal sMod vMod (by decide) 0 1 (by decide) (by decide)
    (by decide) (by decide) (by decide) (by decide) (by decide)

/-! ### Renumbering: rank characterization -/

/-- In a sorted duplicate-free list, the index of a member is the number
of strictly smaller entries. -/
lemma indexOf_sorted_nodup {a : Nat} :
    ∀ u : List Nat, List.Sorted (· ≤ ·) u → u.Nodup → a ∈ u →
      u.indexOf a = (u.filter (fun x => decide (x < a))).length := by
  intro u
  induction u with
  | nil =>
    intro _ _ ha
    simp at ha
  | cons b t ih =>
    intro hs hn ha
    rcases List.mem_cons.mp ha with rfl | hat
    · rw [List.indexOf_cons_self]
      have hnone : ∀ x ∈ a :: t, ¬ (x < a) := by
        intro x hx
        rcases List.mem_cons.mp hx with rfl | hxt
        · omega
        · have := (List.sorted_cons.mp hs).1 x hxt
          omega
      have hfe : (a :: t).filter (fun x => decide (x < a)) = [] :=
        List.filter_eq_nil_iff.mpr (by simpa using hnone)
      rw [hfe]
      rfl
    · have hab : b ≠ a := fun h => (List.nodup_cons.mp hn).1 (h ▸ hat)
      rw [List.indexOf_cons_ne _ hab]
      have hba : b < a := by
        have := (List.sorted_cons.mp hs).1 a hat
        omega
      rw [List.filter_cons, if_pos (show decide (b < a) = true by simpa using hba)]
      rw [ih (List.sorted_cons.mp hs).2 (List.nodup_cons.mp hn).2 hat]
      simp [Nat.succ_eq_add_one]

/-- `group_mapping[a] - 1` counts the distinct old ids smaller than
`a`. -/
lemma renumber_map_rank (ags : List Nat) {a : Nat} (ha : a ∈ ags) :
    renumber_map ags a
      = (ags.dedup.filter (fun x => decide (x < a))).length + 1 := by
  unfold renumber_map
  have hperm : List.Perm (List.insertionSort (· ≤ ·) ags.dedup) ags.dedup :=
    List.perm_insertionSort _ _
  have hs : List.Sorted (· ≤ ·) (List.insertionSort (· ≤ ·) ags.dedup) :=
    List.sorted_insertionSort _ _
  have hn : (List.insertionSort (· ≤ ·) ags.dedup).Nodup :=
    hperm.nodup_iff.mpr (List.nodup_dedup ags)
  have hau : a ∈ List.insertionSort (· ≤ ·) ags.dedup :=
    hperm.mem_iff.mpr (List.mem_dedup.mpr ha)
  rw [indexOf_sorted_nodup _ hs hn hau, (hperm.filter _).length_eq]

/-- Count of distinct values below `x`, as a `Finset` cardinality. -/
lemma cnt_eq_card (l : List Nat) (x : Nat) :
    (l.dedup.filter (fun y => decide (y < x))).length
      = (l.toFinset.filter (fun y => y < x)).card := by
  have hnd : (l.dedup.filter (fun y => decide (y < x))).Nodup :=
    (List.nodup_dedup l).filter _
  rw [← List.toFinset_card_of_nodup hnd]
  congr 1
  ext y
  simp [List.mem_filter, List.mem_dedup]

/-! ### Reading the returned student list -/

lemma studAt_map (f : Student → Student) (l : List Student) {i : Nat}
    (hi : i < l.length) :
    studAt (l.map f) i = f (studAt l i) := by
  unfold studAt
  rw [List.getD_eq_getElem?_getD, List.getElem?_map, List.getD_eq_getElem?_getD,
    List.getElem?_eq_getElem hi]
  rfl

lemma studAt_map_range (f : Nat → Student) {n i : Nat} (hi : i < n) :
    studAt ((List.range n).map f) i = f i := by
  unfold studAt
  rw [List.getD_eq_getElem?_getD, List.getElem?_map, List.getElem?_range hi]
  rfl

lemma annotateStudents_length (students : List Student) (ag : Nat → Nat) :
    (annotateStudents students ag).length = students.length := by
  unfold annotateStudents
  simp

lemma annotateStudents_ags (students : List Student) (ag : Nat → Nat) :
    (annotateStudents students ag).map (fun t => t.assigned_group.getD 0)
      = annotAgs students ag := by
  unfold annotateStudents annotAgs
  rw [List.map_map]
  rfl

lemma studAt_annotate {students : List Student} {ag : Nat → Nat} {i : Nat}
    (hi : i < students.length) :
    studAt (annotateStudents students ag) i
      = { studAt students i with assigned_group := some (ag i + 1) } := by
  unfold annotateStudents
  exact studAt_map_range
    (fun k => { studAt students k with assigned_group := some (ag k + 1) }) hi

/-- The final team id of a student depends only on their own raw team
index: it is `group_mapping[g + 1]`. -/
lemma finalGroup_eq {students : List Student} {ag : Nat → Nat} {i : Nat}
    (hi : i < students.length) :
    finalGroup students ag i
      = some (renumber_map (annotAgs students ag) (ag i + 1)) := by
  unfold finalGroup renumberStudents
  have hi' : i < (annotateStudents students ag).length := by
    rw [annotateStudents_length]; exact hi
  rw [studAt_map _ _ hi', annotateStudents_ags, studAt_annotate hi]
  rfl

/-- Rank form of the final team id. -/
lemma finalGroup_rank {students : List Student} {ag : Nat → Nat} {i : Nat}
    (hi : i < students.length) :
    finalGroup students ag i
      = some (((annotAgs students ag).dedup.filter
          (fun x => decide (x < ag i + 1))).length + 1) := by
  rw [finalGroup_eq hi, renumber_map_rank]
  unfold annotAgs
  exact List.mem_map.mpr ⟨i, List.mem_range.mpr hi, rfl⟩

lemma set_assigned_self {s : Student} {a : Option Nat} (h : a = s.assigned_group) :
    { s with assigned_group := a } = s := by
  subst h
  rfl

/-- Claim C8: renumbering is idempotent — on a student list whose
`assigned_group` values are exactly `1..K'`, `renumber_groups` leaves
every student's `assigned_group` unchanged. -/
theorem claim_C8_renumber_idempotent (students : List Student) (Kp : Nat)
    (h1 : ∀ s ∈ students, s.assigned_group.isSome = true
      ∧ 1 ≤ s.assigned_group.getD 0 ∧ s.assigned_group.getD 0 ≤ Kp)
    (h2 : ∀ k ≤ Kp, 1 ≤ k → ∃ s ∈ students, s.assigned_group = some k) :
    renumberStudents students = students := by
  unfold renumberStudents
  have key : ∀ s ∈ students,
      renumber_map (students.map (fun t => t.assigned_group.getD 0))
        (s.assigned_group.getD 0) = s.assigned_group.getD 0 := by
    intro s hs
    have hmem : s.assigned_group.getD 0
        ∈ students.map (fun t => t.assigned_group.getD 0) :=
      List.mem_map.mpr ⟨s, hs, rfl⟩
    rw [renumber_map_rank _ hmem, cnt_eq_card]
    have hset : (students.map (fun t => t.assigned_group.getD 0)).toFinset.filter
        (fun y => y < s.assigned_group.getD 0)
        = Finset.Ico 1 (s.assigned_group.getD 0) := by
      ext x
      simp only [Finset.mem_filter, List.mem_toFinset, List.mem_map, Finset.mem_Ico]
      constructor
      · rintro ⟨⟨t, hts, rfl⟩, hlt⟩
        exact ⟨(h1 t hts).2.1, hlt⟩
      · rintro ⟨hx1, hxlt⟩
        have hxk : x ≤ Kp := by
          have := (h1 s hs).2.2
          omega
        obtain ⟨t, hts, hta⟩ := h2 x hxk hx1
        refine ⟨⟨t, hts, ?_⟩, hxlt⟩
        rw [hta]
        rfl
    rw [hset, Nat.card_Ico]
    have := (h1 s hs).2.1
    omega
  have hcong : students.map (fun s =>
      { s with
        assigned_group := some (renumber_map
          (students.map (fun t => t.assigned_group.getD 0))
          (s.assigned_group.getD 0)) })
      = students.map (fun s => s) := by
    apply List.map_congr_left
    intro s hs
    rw [key s hs]
    apply set_assigned_self
    obtain ⟨a, ha⟩ := Option.isSome_iff_exists.mp (h1 s hs).1
    rw [ha]
    rfl
  rw [hcong, List.map_id']

theorem claim_C8_witness : renumberStudents sRen = sRen :=
  claim_C8_renumber_idempotent sRen 2 (by decide) (by decide)

/-! ### The email→index dict: last occurrence wins -/

/-- Characterization of the fold that builds `email_to_index`: either no
index below `m` matches and the fold is the identity, or the fold yields
the largest matching index below `m`. -/
lemma email_fold_char (students : List Student) (e : String) :
    ∀ m : Nat,
      ((∀ k < m, pyStrip (studAt students k).email ≠ e) ∧
        ∀ acc : Option Nat, (List.range m).foldl
          (fun acc i => if pyStrip (studAt students i).email = e then some i else acc)
          acc = acc)
      ∨ (∃ k, k < m ∧ pyStrip (studAt students k).email = e ∧
          (∀ p, k < p → p < m → pyStrip (studAt students p).email ≠ e) ∧
          ∀ acc : Option Nat, (List.range m).foldl
            (fun acc i => if pyStrip (studAt students i).email = e then some i else acc)
            acc = some k) := by
  intro m
  induction m with
  | zero =>
    left
    exact ⟨by omega, fun _ => rfl⟩
  | succ m ih =>
    have hsplit : ∀ acc : Option Nat, (List.range (m + 1)).foldl
        (fun acc i => if pyStrip (studAt students i).email = e then some i else acc) acc
        = (if pyStrip (studAt students m).email = e then some m
            else (List.range m).foldl
              (fun acc i => if pyStrip (studAt students i).email = e then some i else acc)
              acc) := by
      intro acc
      rw [List.range_succ, List.foldl_append]
      rfl
    by_cases hm : pyStrip (studAt students m).email = e
    · right
      refine ⟨m, by omega, hm, by omega, fun acc => ?_⟩
      rw [hsplit, if_pos hm]
    · rcases ih with ⟨hall, hfold⟩ | ⟨k, hk, hke, hlast, hfold⟩
      · left
        refine ⟨?_, fun acc => by rw [hsplit acc, if_neg hm, hfold]⟩
        intro k hk
        rcases Nat.lt_succ_iff_lt_or_eq.mp hk with h | rfl
        · exact hall k h
        · exact hm
      · right
        refine ⟨k, by omega, hke, ?_, fun acc => by rw [hsplit acc, if_neg hm, hfold]⟩
        intro p h1 h2
        rcases Nat.lt_succ_iff_lt_or_eq.mp h2 with h | rfl
        · exact hlast p h1 h
        · exact hm

/-- If `b` matches `e` and no later index does, the dict maps `e` to
`b`. -/
lemma email_to_index_last {students : List Student} {e : String} {b : Nat}
    (hb : b < students.length) (hmatch : pyStrip (studAt students b).email = e)
    (hlast : ∀ k < students.length, b < k → pyStrip (studAt students k).email ≠ e) :
    email_to_index students e = some b := by
  unfold email_to_index
  rcases email_fold_char students e students.length with
    ⟨hall, _⟩ | ⟨k, hk, hke, hklast, hfold⟩
  · exact absurd hmatch (hall b hb)
  · rw [hfold]
    have hkb : k = b := by
      rcases Nat.lt_trichotomy k b with h | h | h
      · exact absurd hmatch (hklast b h hb)
      · exact h
      · exact absurd hke (hlast k hk h)
    rw [hkb]

/-- The dict entry for a present email is the last index bearing it; in
particular it is at least any given index bearing it. -/
lemma email_to_index_ge {students : List Student} {j : Nat}
    (hj : j < students.length) :
    ∃ k, email_to_index students (pyStrip (studAt students j).email) = some k
      ∧ j ≤ k ∧ k < students.length
      ∧ pyStrip (studAt students k).email = pyStrip (studAt students j).email := by
  rcases email_fold_char students (pyStrip (studAt students j).email) students.length
    with ⟨hall, _⟩ | ⟨k, hk, hke, hlast, hfold⟩
  · exact absurd rfl (hall j hj)
  · refine ⟨k, by unfold email_to_index; rw [hfold], ?_, hk, hke⟩
    by_contra hjk
    push_neg at hjk
    exact absurd rfl (hlast j hjk hj)

/-- Claim C2 is false on the code: in `sDup`, student 1's trimmed
preferred email equals student 0's trimmed email (a preference edge
`1 → 0`), yet in an accepted solution student 1 ends in team 2 and
student 0 in team 1 — the dict bound the shared email to its last
occurrence (index 3) instead. -/
theorem claim_C2_counterexample :
    modelConstraints sDup 3 4 vDup
    ∧ pyStrip (studAt sDup 1).preferred_partner_email ≠ ""
    ∧ pyStrip (studAt sDup 1).preferred_partner_email = pyStrip (studAt sDup 0).email
    ∧ finalGroup sDup vDup.assigned_group 1 = some 2
    ∧ finalGroup sDup vDup.assigned_group 0 = some 1 := by
  refine ⟨by decide, by decide, by decide, by decide, by decide⟩

/-- Claim C2 amended: a preference edge is honored toward the LAST
participant whose trimmed email equals the (non-empty) trimmed
preference; that pair always shares the same final team id. -/
theorem claim_C2_amended_pref_colocated (students : List Student) (v : Valuation)
    (hc : modelConstraints students 3 4 v)
    (a b : Nat) (ha : a < students.length) (hb : b < students.length)
    (hpe : pyStrip (studAt students a).preferred_partner_email ≠ "")
    (hmatch : pyStrip (studAt students b).email
      = pyStrip (studAt students a).preferred_partner_email)
    (hlast : ∀ k < students.length, b < k →
      pyStrip (studAt students k).email
        ≠ pyStrip (studAt students a).preferred_partner_email) :
    finalGroup students v.assigned_group a = finalGroup students v.assigned_group b := by
  have hidx : email_to_index students
      (pyStrip (studAt students a).preferred_partner_email) = some b :=
    email_to_index_last hb hmatch hlast
  have hag : v.assigned_group a = v.assigned_group b :=
    hc.2.2.1 a ha b hb hpe hidx
  rw [finalGroup_eq ha, finalGroup_eq hb, hag]

theorem claim_C2_amended_witness :
    finalGroup sDup vDup.assigned_group 1 = finalGroup sDup vDup.assigned_group 3 :=
  claim_C2_amended_pref_colocated sDup vDup (by decide) 1 3 (by decide) (by decide)
    (by decide) (by decide) (by decide)

/-- Claim C7 is false on the code: `sDup` has two participants (indices
0 and 3) sharing a trimmed email, no error of any kind is raised — the
model is built and an accepted solution yields a non-empty partition. -/
theorem claim_C7_counterexample :
    modelConstraints sDup 3 4 vDup
    ∧ pyStrip (studAt sDup 0).email = pyStrip (studAt sDup 3).email
    ∧ (assign_groups sDup 3 CpStatus.optimal vDup.assigned_group).1 ≠ [] := by
  refine ⟨by decide, by decide, by decide⟩

/-- Claim C7 amended: duplicate trimmed emails are not rejected; the
email→index dict silently binds the shared email to its last occurrence
and a feasible solve still produces a non-empty partition. -/
theorem claim_C7_amended_no_duplicate_check (students : List Student) (v : Valuation)
    (hc : modelConstraints students 3 4 v)
    (i j : Nat) (hij : i < j) (hj : j < students.length)
    (hdup : pyStrip (studAt students i).email = pyStrip (studAt students j).email) :
    (assign_groups students 3 CpStatus.optimal v.assigned_group).1 ≠ []
    ∧ ∃ k, email_to_index students (pyStrip (studAt students j).email) = some k
        ∧ j ≤ k ∧ k < students.length
        ∧ pyStrip (studAt students k).email = pyStrip (studAt students j).email := by
  constructor
  · rw [assign_groups_fst_of_success (Or.inl rfl)]
    have hbmem : j ∈ bucket students.length v.assigned_group (v.assigned_group j) :=
      mem_bucket.mpr ⟨hj, rfl⟩
    have hmem := mem_groupsIdx.mpr
      ⟨⟨v.assigned_group j, ag_lt hc hj, rfl⟩, List.ne_nil_of_mem hbmem⟩
    exact List.ne_nil_of_mem hmem
  · exact email_to_index_ge hj

theorem claim_C7_amended_witness :
    (assign_groups sDup 3 CpStatus.optimal vDup.assigned_group).1 ≠ []
    ∧ ∃ k, email_to_index sDup (pyStrip (studAt sDup 3).email) = some k
        ∧ 3 ≤ k ∧ k < sDup.length
        ∧ pyStrip (studAt sDup k).email = pyStrip (studAt sDup 3).email :=
  claim_C7_amended_no_duplicate_check sDup vDup (by decide) 0 3 (by decide) (by decide)
    (by decide)

/-! ### Counting distinct team indices -/

lemma countP_range_card (m : Nat) (p : Nat → Bool) :
    (List.range m).countP p = ((Finset.range m).filter (fun x => p x = true)).card := by
  rw [List.countP_eq_length_filter,
    ← List.toFinset_card_of_nodup ((List.nodup_range m).filter _)]
  congr 1
  ext x
  simp [List.mem_filter]

lemma dedup_length_card (l : List Nat) : l.dedup.length = l.toFinset.card := by
  rw [← List.toFinset_card_of_nodup (List.nodup_dedup l)]
  congr 1
  ext x
  simp

lemma annot_toFinset (students : List Student) (ag : Nat → Nat) :
    (annotAgs students ag).toFinset
      = ((Finset.range students.length).image ag).image (· + 1) := by
  ext x
  simp only [annotAgs, List.mem_toFinset, List.mem_map, List.mem_range,
    Finset.mem_image, Finset.mem_range]
  constructor
  · rintro ⟨i, hi, rfl⟩
    exact ⟨ag i, ⟨i, hi, rfl⟩, rfl⟩
  · rintro ⟨y, ⟨i, hi, rfl⟩, rfl⟩
    exact ⟨i, hi, rfl⟩

lemma bucket_isEmpty_iff (n g : Nat) (ag : Nat → Nat) :
    ((bucket n ag g).isEmpty = false) ↔ ∃ i < n, ag i = g := by
  rw [List.isEmpty_eq_false_iff_exists_mem]
  constructor
  · rintro ⟨i, hi⟩
    rcases mem_bucket.mp hi with ⟨h1, h2⟩
    exact ⟨i, h1, h2⟩
  · rintro ⟨i, h1, h2⟩
    exact ⟨i, mem_bucket.mpr ⟨h1, h2⟩⟩

/-- The used team indices are exactly the image of `assigned_group`. -/
lemma nonempty_buckets_eq_image {n K : Nat} {ag : Nat → Nat}
    (hag : ∀ i < n, ag i < K) :
    (Finset.range K).filter (fun g => (!(bucket n ag g).isEmpty) = true)
      = (Finset.range n).image ag := by
  ext g
  rw [Finset.mem_filter, Finset.mem_range, Finset.mem_image]
  constructor
  · rintro ⟨-, hne⟩
    have hfe : (bucket n ag g).isEmpty = false := by
      cases hbe : (bucket n ag g).isEmpty
      · rfl
      · rw [hbe] at hne
        simp at hne
    obtain ⟨i, hi, hagi⟩ := (bucket_isEmpty_iff n g ag).mp hfe
    exact ⟨i, Finset.mem_range.mpr hi, hagi⟩
  · rintro ⟨i, hi, rfl⟩
    rw [Finset.mem_range] at hi
    have hfe : (bucket n (ag) (ag i)).isEmpty = false :=
      (bucket_isEmpty_iff n (ag i) ag).mpr ⟨i, hi, rfl⟩
    refine ⟨hag i hi, by rw [hfe]; rfl⟩

/-- Number of returned teams = number of distinct pre-renumber ids. -/
lemma groupsIdx_length_eq_dedup {students : List Student} {smin smax : Nat}
    {v : Valuation} (hc : modelConstraints students smin smax v) :
    (groupsIdx students.length (max_groups smin students.length)
        v.assigned_group).length
      = (annotAgs students v.assigned_group).dedup.length := by
  unfold groupsIdx
  rw [← List.countP_eq_length_filter]
  have h1 : (((List.range (max_groups smin students.length)).map
      (bucket students.length v.assigned_group)).countP (fun t => !t.isEmpty))
      = (List.range (max_groups smin students.length)).countP
          (fun g => !(bucket students.length v.assigned_group g).isEmpty) := by
    rw [List.countP_map]
    rfl
  have hinj : Function.Injective (fun y : Nat => y + 1) := fun a b h => by
    simpa using h
  rw [h1, countP_range_card, nonempty_buckets_eq_image (fun i hi => ag_lt hc hi),
    dedup_length_card, annot_toFinset, Finset.card_image_of_injective _ hinj]

lemma cnt_card_mono (l : List Nat) {a b : Nat} (hab : a ≤ b) :
    (l.toFinset.filter (fun y => y < a)).card
      ≤ (l.toFinset.filter (fun y => y < b)).card := by
  apply Finset.card_le_card
  intro y hy
  rw [Finset.mem_filter] at hy ⊢
  exact ⟨hy.1, by omega⟩

lemma cnt_card_strict (l : List Nat) {a b : Nat} (ha : a ∈ l) (hab : a < b) :
    (l.toFinset.filter (fun y => y < a)).card
      < (l.toFinset.filter (fun y => y < b)).card := by
  apply Finset.card_lt_card
  rw [Finset.ssubset_iff_of_subset]
  · refine ⟨a, ?_, ?_⟩
    · rw [Finset.mem_filter, List.mem_toFinset]
      exact ⟨ha, hab⟩
    · rw [Finset.mem_filter]
      rintro ⟨-, h⟩
      omega
  · intro y hy
    rw [Finset.mem_filter] at hy ⊢
    exact ⟨hy.1, by omega⟩

lemma assign_groups_snd_of_success {students : List Student} {status : CpStatus}
    {ag : Nat → Nat} (hs : status = CpStatus.optimal ∨ status = CpStatus.feasible) :
    (assign_groups students 3 status ag).2
      = renumberStudents (annotateStudents students ag) := by
  unfold assign_groups
  rw [if_pos hs]

/-- Claim C5 is false on the code: in the accepted solution `vRev` over
`sRev` the solver puts the first three students in raw team 1 and the
last three in raw team 0; renumbering is by NUMERIC sort, so the first
participant's final id is 2, not 1 as first-appearance order would
demand. -/
theorem claim_C5_counterexample :
    modelConstraints sRev 3 4 vRev
    ∧ (assign_groups sRev 3 CpStatus.optimal vRev.assigned_group).1.length = 2
    ∧ (studAt (assign_groups sRev 3 CpStatus.optimal vRev.assigned_group).2 0).assigned_group
        = some 2 := by
  refine ⟨by decide, by decide, by decide⟩

/-- Claim C5 amended: the final ids are exactly `1..K'` (`K'` = number of
returned teams), but they are assigned in increasing order of the
solver's raw team index (numeric sort of the old ids), not in order of
first appearance in the participant list. -/
theorem claim_C5_amended_ids_sorted (students : List Student) (v : Valuation)
    (hc : modelConstraints students 3 4 v)
    (status : CpStatus)
    (hs : status = CpStatus.optimal ∨ status = CpStatus.feasible) :
    (∀ i < students.length, ∃ k,
      (studAt (assign_groups students 3 status v.assigned_group).2 i).assigned_group
        = some k
      ∧ 1 ≤ k ∧ k ≤ (assign_groups students 3 status v.assigned_group).1.length)
    ∧ (∀ k, 1 ≤ k → k ≤ (assign_groups students 3 status v.assigned_group).1.length →
      ∃ i < students.length,
        (studAt (assign_groups students 3 status v.assigned_group).2 i).assigned_group
          = some k)
    ∧ (∀ i < students.length, ∀ j < students.length,
      ((studAt (assign_groups students 3 status v.assigned_group).2 i).assigned_group.getD 0
        ≤ (studAt (assign_groups students 3 status
            v.assigned_group).2 j).assigned_group.getD 0
        ↔ v.assigned_group i ≤ v.assigned_group j)) := by
  rw [assign_groups_snd_of_success hs, assign_groups_fst_of_success hs]
  have hfin : ∀ i, i < students.length →
      (studAt (renumberStudents (annotateStudents students v.assigned_group)) i).assigned_group
        = some (((annotAgs students v.assigned_group).toFinset.filter
            (fun y => y < v.assigned_group i + 1)).card + 1) := by
    intro i hi
    have := @finalGroup_rank students v.assigned_group i hi
    unfold finalGroup at this
    rw [this, cnt_eq_card]
  have hKlen : (groupsIdx students.length (max_groups 3 students.length)
      v.assigned_group).length
      = (annotAgs students v.assigned_group).toFinset.card := by
    rw [groupsIdx_length_eq_dedup hc, dedup_length_card]
  refine ⟨?_, ?_, ?_⟩
  · intro i hi
    refine ⟨((annotAgs students v.assigned_group).toFinset.filter
        (fun y => y < v.assigned_group i + 1)).card + 1, hfin i hi, by omega, ?_⟩
    rw [hKlen]
    have hstrict : ((annotAgs students v.assigned_group).toFinset.filter
        (fun y => y < v.assigned_group i + 1)).card
        < (annotAgs students v.assigned_group).toFinset.card := by
      apply Finset.card_lt_card
      rw [Finset.ssubset_iff_of_subset (Finset.filter_subset _ _)]
      refine ⟨v.assigned_group i + 1, ?_, ?_⟩
      · rw [List.mem_toFinset]
        exact List.mem_map.mpr ⟨i, List.mem_range.mpr hi, rfl⟩
      · rw [Finset.mem_filter]
        rintro ⟨-, h⟩
        omega
    omega
  · intro k hk1 hk2
    rw [hKlen] at hk2
    set u := List.insertionSort (· ≤ ·) (annotAgs students v.assigned_group).dedup with hu
    have hperm : List.Perm u (annotAgs students v.assigned_group).dedup :=
      List.perm_insertionSort _ _
    have hulen : u.length = (annotAgs students v.assigned_group).toFinset.card := by
      rw [hperm.length_eq, dedup_length_card]
    have hidx : k - 1 < u.length := by omega
    have hmemu : u.get ⟨k - 1, hidx⟩ ∈ u := u.get_mem (k - 1) hidx
    have hmema : u.get ⟨k - 1, hidx⟩ ∈ annotAgs students v.assigned_group :=
      List.mem_dedup.mp (hperm.mem_iff.mp hmemu)
    obtain ⟨i, hir, hieq⟩ := List.mem_map.mp hmema
    rw [List.mem_range] at hir
    refine ⟨i, hir, ?_⟩
    have hfi := @finalGroup_eq students v.assigned_group i hir
    unfold finalGroup at hfi
    rw [hfi]
    unfold renumber_map
    rw [← hu, hieq]
    have hnd : u.Nodup := hperm.nodup_iff.mpr (List.nodup_dedup _)
    have hiou : u.indexOf (u.get ⟨k - 1, hidx⟩) = k - 1 := by
      rw [List.get_eq_getElem]
      exact List.indexOf_getElem hnd (k - 1) hidx
    rw [hiou]
    congr 1
    omega
  · intro i hi j hj
    rw [hfin i hi, hfin j hj]
    simp only [Option.getD_some]
    constructor
    · intro hle
      by_contra hgt
      push_neg at hgt
      have hmem : v.assigned_group j + 1 ∈ annotAgs students v.assigned_group :=
        List.mem_map.mpr ⟨j, List.mem_range.mpr hj, rfl⟩
      have := cnt_card_strict (annotAgs students v.assigned_group) hmem
        (show v.assigned_group j + 1 < v.assigned_group i + 1 by omega)
      omega
    · intro hle
      have := cnt_card_mono (annotAgs students v.assigned_group)
        (show v.assigned_group i + 1 ≤ v.assigned_group j + 1 by omega)
      omega

theorem claim_C5_amended_witness :
    (∀ i < sRev.length, ∃ k,
      (studAt (assign_groups sRev 3 CpStatus.optimal vRev.assigned_group).2 i).assigned_group
        = some k
      ∧ 1 ≤ k ∧ k ≤ (assign_groups sRev 3 CpStatus.optimal vRev.assigned_group).1.length)
    ∧ (∀ k, 1 ≤ k → k ≤ (assign_groups sRev 3 CpStatus.optimal vRev.assigned_group).1.length →
      ∃ i < sRev.length,
        (studAt (assign_groups sRev 3 CpStatus.optimal vRev.assigned_group).2 i).assigned_group
          = some k)
    ∧ (∀ i < sRev.length, ∀ j < sRev.length,
      ((studAt (assign_groups sRev 3 CpStatus.optimal
          vRev.assigned_group).2 i).assigned_group.getD 0
        ≤ (studAt (assign_groups sRev 3 CpStatus.optimal
            vRev.assigned_group).2 j).assigned_group.getD 0
        ↔ vRev.assigned_group i ≤ vRev.assigned_group j)) :=
  claim_C5_amended_ids_sorted sRev vRev (by decide) CpStatus.optimal (Or.inl rfl)

/-- An element at position `k` of a filtered list sits at some position
`m` of the original list, with exactly `k` kept elements before it. -/
lemma getElem?_filter_structure {α : Type} (p : α → Bool) :
    ∀ (l : List α) (k : Nat) (a : α), (l.filter p)[k]? = some a →
      ∃ m, m < l.length ∧ l[m]? = some a ∧ p a = true
        ∧ ((l.take m).filter p).length = k := by
  intro l
  induction l with
  | nil =>
    intro k a h
    simp at h
  | cons x t ih =>
    intro k a h
    by_cases hx : p x
    · rw [List.filter_cons, if_pos hx] at h
      cases k with
      | zero =>
        rw [List.getElem?_cons_zero] at h
        have hxa : x = a := by injection h
        subst hxa
        exact ⟨0, by simp, by simp, hx, by simp⟩
      | succ kp =>
        rw [List.getElem?_cons_succ] at h
        obtain ⟨m, hm, hg, hpa, htk⟩ := ih kp a h
        refine ⟨m + 1, by simp; omega, by simpa using hg, hpa, ?_⟩
        rw [List.take_succ_cons, List.filter_cons, if_pos hx]
        simp [htk]
    · rw [List.filter_cons, if_neg hx] at h
      obtain ⟨m, hm, hg, hpa, htk⟩ := ih k a h
      refine ⟨m + 1, by simp; omega, by simpa using hg, hpa, ?_⟩
      rw [List.take_succ_cons, List.filter_cons, if_neg hx, htk]

lemma annot_filter_card (students : List Student) (ag : Nat → Nat) (g : Nat) :
    ((annotAgs students ag).toFinset.filter (fun y => y < g + 1)).card
      = (((Finset.range students.length).image ag).filter (fun y => y < g)).card := by
  have hinj : Function.Injective (fun y : Nat => y + 1) := fun a b h => by
    simpa using h
  rw [annot_toFinset, Finset.filter_image, Finset.card_image_of_injective _ hinj]
  congr 1
  apply Finset.filter_congr
  intro y _
  omega

lemma range_filter_nonempty_eq (n m : Nat) (ag : Nat → Nat) :
    (Finset.range m).filter (fun g => (!(bucket n ag g).isEmpty) = true)
      = ((Finset.range n).image ag).filter (fun y => y < m) := by
  ext y
  rw [Finset.mem_filter, Finset.mem_filter, Finset.mem_range, Finset.mem_image]
  constructor
  · rintro ⟨hym, hne⟩
    have hfe : (bucket n ag y).isEmpty = false := by
      cases hbe : (bucket n ag y).isEmpty
      · rfl
      · rw [hbe] at hne
        simp at hne
    obtain ⟨i, hi, hagi⟩ := (bucket_isEmpty_iff n y ag).mp hfe
    exact ⟨⟨i, Finset.mem_range.mpr hi, hagi⟩, hym⟩
  · rintro ⟨⟨i, hi, rfl⟩, hym⟩
    rw [Finset.mem_range] at hi
    have hfe : (bucket n ag (ag i)).isEmpty = false :=
      (bucket_isEmpty_iff n (ag i) ag).mpr ⟨i, hi, rfl⟩
    exact ⟨hym, by rw [hfe]; rfl⟩

/-- Claim C10: the returned team list is ordered consistently with the
final numbering: every member of the k-th returned team (1-based) ends
with `assigned_group = k`. -/
theorem claim_C10_team_order (students : List Student) (v : Valuation)
    (hc : modelConstraints students 3 4 v)
    (status : CpStatus)
    (hs : status = CpStatus.optimal ∨ status = CpStatus.feasible) :
    ∀ k, ∀ hk : k < (assign_groups students 3 status v.assigned_group).1.length,
      ∀ i ∈ (assign_groups students 3 status v.assigned_group).1.get ⟨k, hk⟩,
        (studAt (assign_groups students 3 status v.assigned_group).2 i).assigned_group
          = some (k + 1) := by
  rw [assign_groups_fst_of_success hs, assign_groups_snd_of_success hs]
  intro k hk i hi
  unfold groupsIdx at hk hi
  set L := (List.range (max_groups 3 students.length)).map
    (bucket students.length v.assigned_group) with hL
  have h0 : (L.filter (fun t => !t.isEmpty))[k]?
      = some ((L.filter (fun t => !t.isEmpty)).get ⟨k, hk⟩) := by
    rw [List.get_eq_getElem, List.getElem?_eq_getElem hk]
  obtain ⟨m, hm, hgm, hpm, htk⟩ := getElem?_filter_structure _ L k _ h0
  have hmK : m < max_groups 3 students.length := by
    rw [hL] at hm
    simpa using hm
  have hbm : L[m]? = some (bucket students.length v.assigned_group m) := by
    rw [hL, List.getElem?_map, List.getElem?_range hmK]
    rfl
  have hteam : (L.filter (fun t => !t.isEmpty)).get ⟨k, hk⟩
      = bucket students.length v.assigned_group m := by
    rw [hgm] at hbm
    injection hbm
  rw [hteam] at hi
  obtain ⟨hin, hagi⟩ := mem_bucket.mp hi
  have hfin : (studAt (renumberStudents (annotateStudents students v.assigned_group))
      i).assigned_group
      = some (((annotAgs students v.assigned_group).toFinset.filter
          (fun y => y < v.assigned_group i + 1)).card + 1) := by
    have := @finalGroup_rank students v.assigned_group i hin
    unfold finalGroup at this
    rw [this, cnt_eq_card]
  rw [hfin, hagi]
  congr 1
  have hcard : ((annotAgs students v.assigned_group).toFinset.filter
      (fun y => y < m + 1)).card
      = (((Finset.range students.length).image v.assigned_group).filter
          (fun y => y < m)).card := annot_filter_card students v.assigned_group m
  have htake : L.take m = (List.range m).map
      (bucket students.length v.assigned_group) := by
    rw [hL, ← List.map_take, List.take_range, Nat.min_eq_left (le_of_lt hmK)]
  have hcount : ((L.take m).filter (fun t => !t.isEmpty)).length
      = (((Finset.range students.length).image v.assigned_group).filter
          (fun y => y < m)).card := by
    rw [htake, ← List.countP_eq_length_filter]
    have h2 : (((List.range m).map (bucket students.length v.assigned_group)).countP
        (fun t => !t.isEmpty))
        = (List.range m).countP
            (fun g => !(bucket students.length v.assigned_group g).isEmpty) := by
      rw [List.countP_map]
      rfl
    rw [h2, countP_range_card, range_filter_nonempty_eq]
  rw [hcard, ← hcount, htk]

theorem claim_C10_witness :
    (studAt (assign_groups sRev 3 CpStatus.optimal
        vRev.assigned_group).2 3).assigned_group = some (0 + 1) :=
  claim_C10_team_order sRev vRev (by decide) CpStatus.optimal (Or.inl rfl)
    0 (by decide) 3 (by decide)

end TeamMatch
